import Mathlib

/-!
Verification of the pricing-distribution analysis engine of
`phx_pricing_assistant` (`auction_analyzer.py`).

Prices are modelled as exact rationals (`ℚ`); the bid formula, which uses a
real square root, is modelled over `ℝ`.  Python's built-in `round` (banker's
rounding, round-half-to-even) is modelled by `pyround`.
-/

namespace PhxPricing

/-- Python's built-in `round(x)` on a rational: round half to even
(banker's rounding). -/
def pyround (x : ℚ) : ℤ :=
  if x - ⌊x⌋ < 1/2 then ⌊x⌋
  else if 1/2 < x - ⌊x⌋ then ⌊x⌋ + 1
  else if ⌊x⌋ % 2 = 0 then ⌊x⌋ else ⌊x⌋ + 1

/-- `smart_round` from `_analyze_price_distribution` (used when the cleaned
dataset has ≥ 10 points): nearest $5 below $100, nearest $10 below $500,
nearest $25 otherwise. -/
def smart_round (price : ℚ) : ℚ :=
  if price < 100 then ((pyround (price / 5) * 5 : ℤ) : ℚ)
  else if price < 500 then ((pyround (price / 10) * 10 : ℤ) : ℚ)
  else ((pyround (price / 25) * 25 : ℤ) : ℚ)

/-- `small_round` from `_analyze_price_distribution` (used when the cleaned
dataset has < 10 points): nearest $1 below $50, nearest $5 below $200,
nearest $10 otherwise. -/
def small_round (price : ℚ) : ℚ :=
  if price < 50 then ((pyround price : ℤ) : ℚ)
  else if price < 200 then ((pyround (price / 5) * 5 : ℤ) : ℚ)
  else ((pyround (price / 10) * 10 : ℤ) : ℚ)

/-- The spec's `smartRound(value, datasetSize)` interface: the source selects
`small_round` when the cleaned dataset has fewer than 10 points and
`smart_round` otherwise (the `if n < 10` dispatch in
`_analyze_price_distribution`). -/
def smartRound (value : ℚ) (datasetSize : ℕ) : ℚ :=
  if datasetSize < 10 then small_round value else smart_round value

/-! ### Basic facts about `pyround` -/

theorem pyround_le_add_half (x : ℚ) : (pyround x : ℚ) ≤ x + 1/2 := by
  have h0 : (⌊x⌋ : ℚ) ≤ x := Int.floor_le x
  have h1 : x < ⌊x⌋ + 1 := Int.lt_floor_add_one x
  unfold pyround
  split_ifs <;> push_cast <;> linarith

theorem sub_half_le_pyround (x : ℚ) : x - 1/2 ≤ (pyround x : ℚ) := by
  have h0 : (⌊x⌋ : ℚ) ≤ x := Int.floor_le x
  have h1 : x < ⌊x⌋ + 1 := Int.lt_floor_add_one x
  unfold pyround
  split_ifs <;> push_cast <;> linarith

theorem floor_le_pyround (x : ℚ) : ⌊x⌋ ≤ pyround x := by
  unfold pyround
  split_ifs <;> omega

theorem pyround_le_floor_add_one (x : ℚ) : pyround x ≤ ⌊x⌋ + 1 := by
  unfold pyround
  split_ifs <;> omega

theorem pyround_mono {x y : ℚ} (h : x ≤ y) : pyround x ≤ pyround y := by
  rcases lt_or_eq_of_le (Int.floor_le_floor h) with hf | hf
  · have h1 := pyround_le_floor_add_one x
    have h2 := floor_le_pyround y
    omega
  · have h0x : (⌊x⌋ : ℚ) ≤ x := Int.floor_le x
    have h1x : x < ⌊x⌋ + 1 := Int.lt_floor_add_one x
    have h0y : (⌊x⌋ : ℚ) ≤ y := by rw [hf]; exact Int.floor_le y
    have h1y : y < ⌊x⌋ + 1 := by rw [hf]; exact_mod_cast Int.lt_floor_add_one y
    unfold pyround
    rw [← hf]
    split_ifs <;> first | omega | linarith

theorem pyround_le_of_lt {x : ℚ} {k : ℤ} (h : x < k) : pyround x ≤ k := by
  have h1 := pyround_le_add_half x
  by_contra hc
  push_neg at hc
  have h2 : (k : ℚ) + 1 ≤ (pyround x : ℚ) := by exact_mod_cast hc
  linarith

theorem le_pyround_of_le {k : ℤ} {x : ℚ} (h : (k : ℚ) ≤ x) : k ≤ pyround x := by
  have h1 := sub_half_le_pyround x
  by_contra hc
  push_neg at hc
  have h2 : (pyround x : ℚ) ≤ (k : ℚ) - 1 := by
    have : pyround x ≤ k - 1 := by omega
    exact_mod_cast this
  linarith

/-! ### Monotonicity of the two rounding helpers -/

theorem smart_round_mono' {x y : ℚ} (h : x ≤ y) : smart_round x ≤ smart_round y := by
  unfold smart_round
  split_ifs with hx1 hy1 hy2 hx2 hy1' hy2' hy1'' hy2''
  · have h5 : pyround (x/5) ≤ pyround (y/5) := pyround_mono (by linarith)
    have : ((pyround (x/5) : ℤ) : ℚ) ≤ ((pyround (y/5) : ℤ) : ℚ) := by exact_mod_cast h5
    push_cast
    linarith
  · -- x < 100 ≤ y < 500
    have hl : pyround (x/5) ≤ 20 := pyround_le_of_lt (by push_cast; linarith)
    have hr : (10 : ℤ) ≤ pyround (y/10) := le_pyround_of_le (by push_cast; linarith)
    have hl' : ((pyround (x/5) * 5 : ℤ) : ℚ) ≤ 100 := by exact_mod_cast by omega
    have hr' : (100 : ℚ) ≤ ((pyround (y/10) * 10 : ℤ) : ℚ) := by exact_mod_cast by omega
    linarith
  · -- x < 100, 500 ≤ y
    have hl : pyround (x/5) ≤ 20 := pyround_le_of_lt (by push_cast; linarith)
    have hr : (20 : ℤ) ≤ pyround (y/25) := le_pyround_of_le (by push_cast; linarith)
    have hl' : ((pyround (x/5) * 5 : ℤ) : ℚ) ≤ 100 := by exact_mod_cast by omega
    have hr' : (500 : ℚ) ≤ ((pyround (y/25) * 25 : ℤ) : ℚ) := by exact_mod_cast by omega
    linarith
  · linarith
  · have h10 : pyround (x/10) ≤ pyround (y/10) := pyround_mono (by linarith)
    have : ((pyround (x/10) : ℤ) : ℚ) ≤ ((pyround (y/10) : ℤ) : ℚ) := by exact_mod_cast h10
    push_cast
    linarith
  · -- 100 ≤ x < 500 ≤ y
    have hl : pyround (x/10) ≤ 50 := pyround_le_of_lt (by push_cast; linarith)
    have hr : (20 : ℤ) ≤ pyround (y/25) := le_pyround_of_le (by push_cast; linarith)
    have hl' : ((pyround (x/10) * 10 : ℤ) : ℚ) ≤ 500 := by exact_mod_cast by omega
    have hr' : (500 : ℚ) ≤ ((pyround (y/25) * 25 : ℤ) : ℚ) := by exact_mod_cast by omega
    linarith
  · linarith
  · linarith
  · have h25 : pyround (x/25) ≤ pyround (y/25) := pyround_mono (by linarith)
    have : ((pyround (x/25) : ℤ) : ℚ) ≤ ((pyround (y/25) : ℤ) : ℚ) := by exact_mod_cast h25
    push_cast
    linarith

theorem small_round_mono' {x y : ℚ} (h : x ≤ y) : small_round x ≤ small_round y := by
  unfold small_round
  split_ifs with hx1 hy1 hy2 hx2 hy1' hy2' hy1'' hy2''
  · exact_mod_cast pyround_mono h
  · -- x < 50 ≤ y < 200
    have hl : pyround x ≤ 50 := pyround_le_of_lt (by push_cast; linarith)
    have hr : (10 : ℤ) ≤ pyround (y/5) := le_pyround_of_le (by push_cast; linarith)
    have hl' : ((pyround x : ℤ) : ℚ) ≤ 50 := by exact_mod_cast hl
    have hr' : (50 : ℚ) ≤ ((pyround (y/5) * 5 : ℤ) : ℚ) := by exact_mod_cast by omega
    linarith
  · -- x < 50, 200 ≤ y
    have hl : pyround x ≤ 50 := pyround_le_of_lt (by push_cast; linarith)
    have hr : (20 : ℤ) ≤ pyround (y/10) := le_pyround_of_le (by push_cast; linarith)
    have hl' : ((pyround x : ℤ) : ℚ) ≤ 50 := by exact_mod_cast hl
    have hr' : (200 : ℚ) ≤ ((pyround (y/10) * 10 : ℤ) : ℚ) := by exact_mod_cast by omega
    linarith
  · linarith
  · have h5 : pyround (x/5) ≤ pyround (y/5) := pyround_mono (by linarith)
    have : ((pyround (x/5) : ℤ) : ℚ) ≤ ((pyround (y/5) : ℤ) : ℚ) := by exact_mod_cast h5
    push_cast
    linarith
  · -- 50 ≤ x < 200 ≤ y
    have hl : pyround (x/5) ≤ 40 := pyround_le_of_lt (by push_cast; linarith)
    have hr : (20 : ℤ) ≤ pyround (y/10) := le_pyround_of_le (by push_cast; linarith)
    have hl' : ((pyround (x/5) * 5 : ℤ) : ℚ) ≤ 200 := by exact_mod_cast by omega
    have hr' : (200 : ℚ) ≤ ((pyround (y/10) * 10 : ℤ) : ℚ) := by exact_mod_cast by omega
    linarith
  · linarith
  · linarith
  · have h10 : pyround (x/10) ≤ pyround (y/10) := pyround_mono (by linarith)
    have : ((pyround (x/10) : ℤ) : ℚ) ≤ ((pyround (y/10) : ℤ) : ℚ) := by exact_mod_cast h10
    push_cast
    linarith

/-- Rounding to a multiple of `m` via `pyround` lands within `m/2` of the
input. -/
theorem pyround_mul_bounds (x m : ℚ) (hm : 0 < m) :
    |(pyround (x / m) : ℚ) * m - x| ≤ m / 2 := by
  have h1 := pyround_le_add_half (x / m)
  have h2 := sub_half_le_pyround (x / m)
  have e : x / m * m = x := div_mul_cancel₀ x (ne_of_gt hm)
  have u : (pyround (x / m) : ℚ) * m ≤ x + m / 2 := by nlinarith
  have l : x - m / 2 ≤ (pyround (x / m) : ℚ) * m := by nlinarith
  rw [abs_le]
  exact ⟨by linarith, by linarith⟩

theorem pyround_bounds (x : ℚ) : |(pyround x : ℚ) - x| ≤ 1 / 2 := by
  have h1 := pyround_le_add_half x
  have h2 := sub_half_le_pyround x
  rw [abs_le]
  exact ⟨by linarith, by linarith⟩

/-- C6 (amended): `smartRound(v, n)` with `n ≥ 10` rounds to the nearest $5
below $100, nearest $10 on [$100,$500), nearest $25 at $500 and above; with
`n < 10` it rounds to the nearest $1 below $50, nearest $5 on [$50,$200), and
nearest $10 (not $25) at $200 and above; `smartRound(47,12) = 45` and
`smartRound(620,40) = 625`. -/
theorem C6_smartRound_spec :
    (∀ (v : ℚ) (n : ℕ), 10 ≤ n →
      ((v < 100 → ∃ k : ℤ, smartRound v n = (k : ℚ) * 5 ∧ |smartRound v n - v| ≤ 5/2) ∧
       (100 ≤ v → v < 500 → ∃ k : ℤ, smartRound v n = (k : ℚ) * 10 ∧ |smartRound v n - v| ≤ 5) ∧
       (500 ≤ v → ∃ k : ℤ, smartRound v n = (k : ℚ) * 25 ∧ |smartRound v n - v| ≤ 25/2))) ∧
    (∀ (v : ℚ) (n : ℕ), n < 10 →
      ((v < 50 → ∃ k : ℤ, smartRound v n = (k : ℚ) ∧ |smartRound v n - v| ≤ 1/2) ∧
       (50 ≤ v → v < 200 → ∃ k : ℤ, smartRound v n = (k : ℚ) * 5 ∧ |smartRound v n - v| ≤ 5/2) ∧
       (200 ≤ v → ∃ k : ℤ, smartRound v n = (k : ℚ) * 10 ∧ |smartRound v n - v| ≤ 5))) ∧
    smartRound 47 12 = 45 ∧ smartRound 620 40 = 625 := by
  refine ⟨fun v n hn => ?_, fun v n hn => ?_, ?_, ?_⟩
  · have hd : ¬ (n < 10) := by omega
    refine ⟨fun hv => ⟨pyround (v/5), ?_, ?_⟩,
            fun hv1 hv2 => ⟨pyround (v/10), ?_, ?_⟩,
            fun hv => ⟨pyround (v/25), ?_, ?_⟩⟩
    · simp only [smartRound, if_neg hd, smart_round, if_pos hv]; push_cast; ring
    · have h := pyround_mul_bounds v 5 (by norm_num)
      simp only [smartRound, if_neg hd, smart_round, if_pos hv]
      push_cast
      convert h using 2 <;> norm_num
    · simp only [smartRound, if_neg hd, smart_round, if_neg (not_lt.mpr hv1), if_pos hv2]
      push_cast; ring
    · have h := pyround_mul_bounds v 10 (by norm_num)
      simp only [smartRound, if_neg hd, smart_round, if_neg (not_lt.mpr hv1), if_pos hv2]
      push_cast
      convert h using 2 <;> norm_num
    · have hv' : ¬ (v < 100) := by linarith
      have hv'' : ¬ (v < 500) := by linarith
      simp only [smartRound, if_neg hd, smart_round, if_neg hv', if_neg hv'']
      push_cast; ring
    · have hv' : ¬ (v < 100) := by linarith
      have hv'' : ¬ (v < 500) := by linarith
      have h := pyround_mul_bounds v 25 (by norm_num)
      simp only [smartRound, if_neg hd, smart_round, if_neg hv', if_neg hv'']
      push_cast
      convert h using 2 <;> norm_num
  · refine ⟨fun hv => ⟨pyround v, ?_, ?_⟩,
            fun hv1 hv2 => ⟨pyround (v/5), ?_, ?_⟩,
            fun hv => ⟨pyround (v/10), ?_, ?_⟩⟩
    · simp only [smartRound, if_pos hn, small_round, if_pos hv]
    · have h := pyround_bounds v
      simp only [smartRound, if_pos hn, small_round, if_pos hv]
      exact h
    · simp only [smartRound, if_pos hn, small_round, if_neg (not_lt.mpr hv1), if_pos hv2]
      push_cast; ring
    · have h := pyround_mul_bounds v 5 (by norm_num)
      simp only [smartRound, if_pos hn, small_round, if_neg (not_lt.mpr hv1), if_pos hv2]
      push_cast
      convert h using 2 <;> norm_num
    · have hv' : ¬ (v < 50) := by linarith
      have hv'' : ¬ (v < 200) := by linarith
      simp only [smartRound, if_pos hn, small_round, if_neg hv', if_neg hv'']
      push_cast; ring
    · have hv' : ¬ (v < 50) := by linarith
      have hv'' : ¬ (v < 200) := by linarith
      have h := pyround_mul_bounds v 10 (by norm_num)
      simp only [smartRound, if_pos hn, small_round, if_neg hv', if_neg hv'']
      push_cast
      convert h using 2 <;> norm_num
  · norm_num [smartRound, smart_round, pyround]
  · norm_num [smartRound, smart_round, pyround]

/-- C6 counterexample: the claim says a small-dataset value ≥ $200 is rounded
to the nearest $25, so `smartRound(220, 5)` would be 225; the code's
`small_round` rounds such values to the nearest $10, giving 220. -/
theorem C6_smartRound_cex : smartRound 220 5 = 220 ∧ smartRound 220 5 ≠ 225 := by
  norm_num [smartRound, small_round, pyround]

theorem C6_smartRound_witness :
    (∃ k : ℤ, smartRound 47 12 = (k : ℚ) * 5 ∧ |smartRound 47 12 - 47| ≤ 5/2) ∧
    (∃ k : ℤ, smartRound 620 40 = (k : ℚ) * 25 ∧ |smartRound 620 40 - 620| ≤ 25/2) ∧
    (∃ k : ℤ, smartRound 220 5 = (k : ℚ) * 10 ∧ |smartRound 220 5 - 220| ≤ 5) :=
  ⟨(C6_smartRound_spec.1 47 12 (by norm_num)).1 (by norm_num),
   (C6_smartRound_spec.1 620 40 (by norm_num)).2.2 (by norm_num),
   (C6_smartRound_spec.2.1 220 5 (by norm_num)).2.2 (by norm_num)⟩

/-- C10: both rounding helpers are monotone nondecreasing, so rounding alone
never reverses the order of the raw percentiles. -/
theorem C10_rounding_monotone (x y : ℚ) (_hx : 0 ≤ x) (hxy : x ≤ y) :
    smart_round x ≤ smart_round y ∧ small_round x ≤ small_round y :=
  ⟨smart_round_mono' hxy, small_round_mono' hxy⟩

theorem C10_rounding_monotone_witness :
    smart_round 47 ≤ smart_round 620 ∧ small_round 47 ≤ small_round 620 :=
  C10_rounding_monotone 47 620 (by norm_num) (by norm_num)

/-! ### The percentile routine -/

/-- `get_percentile` from `_analyze_price_distribution`.  Python's
`int(index)` truncates toward zero; it agrees with `⌊·⌋.toNat` used here on
the nonnegative indices produced by every call site (`percentile ∈ [0,100]`
on a list of length ≥ 1). -/
def get_percentile (data : List ℚ) (percentile : ℚ) : ℚ :=
  if data.length = 1 then data.getD 0 0
  else
    let index : ℚ := (percentile / 100) * ((data.length : ℚ) - 1)
    let lower_index : ℕ := (⌊index⌋).toNat
    let upper_index : ℕ := min (lower_index + 1) (data.length - 1)
    let weight : ℚ := index - (lower_index : ℚ)
    data.getD lower_index 0 * (1 - weight) + data.getD upper_index 0 * weight

theorem get_percentile_of_ne_one (data : List ℚ) (p : ℚ) (h : data.length ≠ 1) :
    get_percentile data p =
      data.getD (⌊(p / 100) * ((data.length : ℚ) - 1)⌋).toNat 0 *
        (1 - ((p / 100) * ((data.length : ℚ) - 1) -
          ((⌊(p / 100) * ((data.length : ℚ) - 1)⌋).toNat : ℚ))) +
      data.getD (min ((⌊(p / 100) * ((data.length : ℚ) - 1)⌋).toNat + 1) (data.length - 1)) 0 *
        ((p / 100) * ((data.length : ℚ) - 1) -
          ((⌊(p / 100) * ((data.length : ℚ) - 1)⌋).toNat : ℚ)) := by
  simp only [get_percentile, if_neg h]

/-- C9: on a nonempty sorted list and `p ∈ [0,100]`, the percentile routine
returns the single element for a one-element list, and otherwise linearly
interpolates between the values at `⌊idx⌋` and `⌈idx⌉` for
`idx = (p/100)·(n-1)`; the 50th percentile of `[10,20,30,40]` is 25. -/
theorem C9_get_percentile_spec :
    (∀ (data : List ℚ) (p : ℚ), data ≠ [] → List.Sorted (· ≤ ·) data →
      0 ≤ p → p ≤ 100 →
      (data.length = 1 → get_percentile data p = data.getD 0 0) ∧
      (2 ≤ data.length →
        get_percentile data p =
          data.getD (⌊(p / 100) * ((data.length : ℚ) - 1)⌋).toNat 0 *
            (1 - Int.fract ((p / 100) * ((data.length : ℚ) - 1))) +
          data.getD (⌈(p / 100) * ((data.length : ℚ) - 1)⌉).toNat 0 *
            Int.fract ((p / 100) * ((data.length : ℚ) - 1)))) ∧
    get_percentile [10, 20, 30, 40] 50 = 25 := by
  constructor
  · intro data p _hne _hsort hp0 hp100
    constructor
    · intro h1
      simp [get_percentile, h1]
    · intro h2
      have hlen1 : data.length ≠ 1 := by omega
      rw [get_percentile_of_ne_one data p hlen1]
      set idx : ℚ := (p / 100) * ((data.length : ℚ) - 1) with hidx
      have hn1 : (1 : ℚ) ≤ (data.length : ℚ) - 1 := by
        have : (2 : ℚ) ≤ (data.length : ℚ) := by exact_mod_cast h2
        linarith
      have hidx0 : 0 ≤ idx := by
        have hpd : 0 ≤ p / 100 := by positivity
        rw [hidx]
        exact mul_nonneg hpd (by linarith)
      have hidxn : idx ≤ (data.length : ℚ) - 1 := by
        have hple : p / 100 ≤ 1 := by
          rw [div_le_one (by norm_num : (0:ℚ) < 100)]; exact hp100
        rw [hidx]
        nlinarith
      have hfl0 : 0 ≤ ⌊idx⌋ := Int.floor_nonneg.mpr hidx0
      have hcastfl : ((⌊idx⌋.toNat : ℕ) : ℚ) = (⌊idx⌋ : ℚ) := by
        exact_mod_cast Int.toNat_of_nonneg hfl0
      have hw : idx - ((⌊idx⌋.toNat : ℕ) : ℚ) = Int.fract idx := by
        rw [hcastfl]; rfl
      rw [hw]
      by_cases hfract : Int.fract idx = 0
      · -- integral index: the interpolation weight is zero and both sides
        -- reduce to the value at the floor index
        have hceil : ⌈idx⌉ = ⌊idx⌋ := by
          have hidxeq : idx = ((⌊idx⌋ : ℤ) : ℚ) := by
            have := Int.fract_add_floor idx
            rw [hfract] at this
            linarith [this]
          rw [hidxeq, Int.ceil_intCast, Int.floor_intCast]
        rw [hfract, hceil]
        ring
      · -- non-integral index: `⌈idx⌉ = ⌊idx⌋ + 1` and the clamp at `n-1`
        -- does not trigger
        have hceil : ⌈idx⌉ = ⌊idx⌋ + 1 := by
          have h1 : (⌈idx⌉ : ℚ) = idx + 1 - Int.fract idx :=
            Int.ceil_eq_add_one_sub_fract hfract
          have h2 : idx - Int.fract idx = (⌊idx⌋ : ℚ) := Int.self_sub_fract idx
          have : (⌈idx⌉ : ℚ) = (⌊idx⌋ : ℚ) + 1 := by linarith
          exact_mod_cast this
        have hfllt : ⌊idx⌋ < (data.length : ℤ) - 1 := by
          have hstrict : (⌊idx⌋ : ℚ) < idx := by
            have := Int.fract_nonneg idx
            have hne : (0 : ℚ) < Int.fract idx := lt_of_le_of_ne this (Ne.symm hfract)
            have hself : Int.fract idx = idx - ⌊idx⌋ := Int.self_sub_floor idx |>.symm
            linarith [hself ▸ hne]
          have : (⌊idx⌋ : ℚ) < (data.length : ℚ) - 1 := lt_of_lt_of_le hstrict hidxn
          have hcast : ((data.length : ℚ) - 1) = (((data.length : ℤ) - 1 : ℤ) : ℚ) := by
            push_cast; ring
          rw [hcast] at this
          exact_mod_cast this
        have hmineq : min (⌊idx⌋.toNat + 1) (data.length - 1) = ⌊idx⌋.toNat + 1 := by
          have : ⌊idx⌋.toNat + 1 ≤ data.length - 1 := by omega
          omega
        have htn : (⌈idx⌉).toNat = ⌊idx⌋.toNat + 1 := by omega
        rw [hmineq, htn]
  · norm_num [get_percentile]

theorem C9_get_percentile_witness :
    get_percentile [10, 20, 30, 40] 50 = 25 ∧
    (get_percentile [10, 20, 30, 40] 50 =
      [10, 20, 30, 40].getD (⌊((50:ℚ) / 100) * (((4:ℕ) : ℚ) - 1)⌋).toNat 0 *
        (1 - Int.fract (((50:ℚ) / 100) * (((4:ℕ) : ℚ) - 1))) +
      [10, 20, 30, 40].getD (⌈((50:ℚ) / 100) * (((4:ℕ) : ℚ) - 1)⌉).toNat 0 *
        Int.fract (((50:ℚ) / 100) * (((4:ℕ) : ℚ) - 1))) ∧
    get_percentile [7] 30 = 7 := by
  refine ⟨C9_get_percentile_spec.2, ?_, ?_⟩
  · have h := (C9_get_percentile_spec.1 [10, 20, 30, 40] 50 (by simp)
      (by norm_num) (by norm_num) (by norm_num)).2 (by norm_num)
    simpa using h
  · have h := (C9_get_percentile_spec.1 [7] 30 (by simp)
      (by simp) (by norm_num) (by norm_num)).1 (by norm_num)
    simpa using h

/-! ### Listing filter stages -/

/-- Python's substring test `needle in hay` on character lists. -/
def hasSub (needle : List Char) : List Char → Bool
  | [] => needle.isEmpty
  | c :: rest => needle.isPrefixOf (c :: rest) || hasSub needle rest

/-- Python's `needle in hay` on strings. -/
def strIn (needle hay : String) : Bool :=
  hasSub needle.toList hay.toList

/-- ASCII lowering of one character (the titles and part names handled by
the table are ASCII, so this matches Python's `str.lower()` on them). -/
def char_lower (c : Char) : Char :=
  if 'A' ≤ c ∧ c ≤ 'Z' then Char.ofNat (c.toNat + 32) else c

/-- Python's `str.lower()` (ASCII range). -/
def pylower (s : String) : String :=
  ⟨s.data.map char_lower⟩

/-- The `suspicious_keywords` table of `_analyze_price_distribution`,
looked up with `part_name.lower()`; parts not in the table get `[]`. -/
def suspicious_keywords (part : String) : List String :=
  if part = "engine" then
    ["oil filter", "housing", "gasket", "seal", "sensor", "valve cover",
     "dipstick", "bracket", "mount", "belt", "pulley"]
  else if part = "alternator" then
    ["brush", "pulley", "wire", "connector", "regulator", "belt"]
  else if part = "transmission" then
    ["fluid", "filter", "gasket", "cooler", "mount", "line"]
  else if part = "starter" then
    ["solenoid", "brush", "drive", "gear", "bolt"]
  else if part = "brake caliper" then
    ["pad", "rotor", "disc", "fluid", "line", "hose"]
  else if part = "fuel pump" then
    ["filter", "line", "hose", "tank", "sending unit"]
  else if part = "headlight" then
    ["bulb", "ballast", "wire", "connector", "lens", "cover"]
  else []

/-- Step 1 of the filter: drop each price whose title (lowered; `""` when the
title list is exhausted, matching `raw_titles[i] if i < len(raw_titles)
else ""`) contains one of the suspicious keywords. -/
def keywordStage (kws : List String) : List ℚ → List String → List ℚ
  | [], _ => []
  | price :: ps, titles =>
    let title := pylower (titles.headD "")
    let rest := keywordStage kws ps titles.tail
    if kws.any (fun kw => strIn kw title) then rest else price :: rest

/-- Step 2 of the filter: the configurable minimum-price floor
(`if minimum_price > 0: keep price >= minimum_price`). -/
def floorStage (minimum_price : ℚ) (prices : List ℚ) : List ℚ :=
  if 0 < minimum_price then prices.filter (fun price => minimum_price ≤ price)
  else prices

/-- Python's `sorted` on rationals (ascending); any ascending-sorted
permutation of a list over a linear order is unique, so insertion sort
computes it. -/
def pysorted (l : List ℚ) : List ℚ := l.insertionSort (· ≤ ·)

/-- Python's `min` of a nonempty list (0 as a don't-care value for `[]`,
which no call site reaches). -/
def listMin : List ℚ → ℚ
  | [] => 0
  | x :: xs => xs.foldl min x

/-- Python's `max` of a nonempty list (0 as a don't-care value for `[]`). -/
def listMax : List ℚ → ℚ
  | [] => 0
  | x :: xs => xs.foldl max x

/-- Q1 of step 3: the sorted value at positional index `n // 4`. -/
def iqr_q1 (prices : List ℚ) : ℚ := (pysorted prices).getD (prices.length / 4) 0

/-- Q3 of step 3: the sorted value at positional index `3 * n // 4`. -/
def iqr_q3 (prices : List ℚ) : ℚ := (pysorted prices).getD (3 * prices.length / 4) 0

/-- Lower IQR bound `q1 - 1.5 * iqr`. -/
def iqr_lower_bound (prices : List ℚ) : ℚ :=
  iqr_q1 prices - 3/2 * (iqr_q3 prices - iqr_q1 prices)

/-- Upper IQR bound `q3 + 1.5 * iqr`. -/
def iqr_upper_bound (prices : List ℚ) : ℚ :=
  iqr_q3 prices + 3/2 * (iqr_q3 prices - iqr_q1 prices)

/-- Step 3 of the filter: IQR outlier rejection, applied only when at least
10 prices remain; a price is removed iff `price < lower` or `price > upper`. -/
def iqrStage (prices : List ℚ) : List ℚ :=
  if 10 ≤ prices.length then
    prices.filter (fun price =>
      !(decide (price < iqr_lower_bound prices) || decide (iqr_upper_bound prices < price)))
  else prices

/-- The three filter stages composed, as run by
`_analyze_price_distribution` on a raw price/title list. -/
def cleanedPrices (raw_prices : List ℚ) (part_name : String)
    (raw_titles : List String) (minimum_price : ℚ) : List ℚ :=
  iqrStage (floorStage minimum_price
    (keywordStage (suspicious_keywords (pylower part_name)) raw_prices raw_titles))

/-! ### The distribution analyzer -/

/-- The fields of the result dictionary of `_analyze_price_distribution`
used by the specification (the remaining fields are free-text
diagnostics and echoes of the raw percentiles). -/
structure PriceResult where
  low : ℚ
  average : ℚ
  high : ℚ
  items_removed : ℕ
  cleaned_count : ℕ
deriving DecidableEq

/-- The three rounded percentile tiers (budget, standard, premium): the
10th/30th/50th percentiles with `smart_round` for ≥ 10 cleaned points and
the 5th/25th/50th percentiles with `small_round` for < 10. -/
def preTiers (sorted_prices : List ℚ) : ℚ × ℚ × ℚ :=
  if sorted_prices.length < 10 then
    (small_round (get_percentile sorted_prices 5),
     small_round (get_percentile sorted_prices 25),
     small_round (get_percentile sorted_prices 50))
  else
    (smart_round (get_percentile sorted_prices 10),
     smart_round (get_percentile sorted_prices 30),
     smart_round (get_percentile sorted_prices 50))

/-- The separation step of the tie-break, scaled by the observed price range
(`step` in the source). -/
def tieStep (sorted_prices : List ℚ) : ℚ :=
  if listMax sorted_prices - listMin sorted_prices < 50 then 5
  else if listMax sorted_prices - listMin sorted_prices < 200 then 10 else 25

/-- The tier-separation tie-break: if all three tiers coincide, `n ≥ 3` and
the observed price range exceeds 10, subtract a range-scaled step from the
budget tier (clamped to the minimum observed price) and add it to the
premium tier. -/
def tieBreak (sorted_prices : List ℚ) (t : ℚ × ℚ × ℚ) : ℚ × ℚ × ℚ :=
  if t.1 = t.2.1 ∧ t.2.1 = t.2.2 ∧ 3 ≤ sorted_prices.length then
    if 10 < listMax sorted_prices - listMin sorted_prices then
      (max (t.1 - tieStep sorted_prices) (listMin sorted_prices), t.2.1,
       t.2.2 + tieStep sorted_prices)
    else t
  else t

/-- The ≥ 3-listings branch of `_analyze_price_distribution`: filter, then
percentile tiers with rounding and tie-break. -/
def analyze_full (raw_prices : List ℚ) (part_name : String)
    (raw_titles : List String) (minimum_price : ℚ) : PriceResult :=
  let original_count := raw_prices.length
  let cp := cleanedPrices raw_prices part_name raw_titles minimum_price
  if cp = [] then ⟨0, 0, 0, original_count, 0⟩
  else
    let sorted_prices := pysorted cp
    let t := tieBreak sorted_prices (preTiers sorted_prices)
    ⟨t.1, t.2.1, t.2.2, original_count - cp.length, cp.length⟩

/-- `_analyze_price_distribution`: empty input gives zeros; fewer than 3
listings give the degenerate arithmetic mean; otherwise the full
filter-and-percentile pipeline runs. -/
def analyze_price_distribution (raw_prices : List ℚ) (part_name : String)
    (raw_titles : List String) (minimum_price : ℚ) : PriceResult :=
  if raw_prices = [] then ⟨0, 0, 0, 0, 0⟩
  else if raw_prices.length < 3 then
    let avg := raw_prices.sum / (raw_prices.length : ℚ)
    ⟨avg, avg, avg, 0, raw_prices.length⟩
  else analyze_full raw_prices part_name raw_titles minimum_price

/-! ### Boundary behaviour of the analyzer (C2) -/

/-- C2: the analyzer returns all-zero tiers and counts on an empty list, the
exact arithmetic mean in all three tiers for 1 or 2 listings, and dispatches
to the full filter-and-percentile pipeline (not the degenerate-mean path)
for exactly 3 listings; `[100,105,110]` yields `(100,100,105)`, not the mean
`105` in every tier. -/
theorem C2_boundary_behavior :
    (∀ (part : String) (titles : List String) (minp : ℚ),
      analyze_price_distribution [] part titles minp = ⟨0, 0, 0, 0, 0⟩) ∧
    (∀ (raw : List ℚ) (part : String) (titles : List String) (minp : ℚ),
      raw.length = 1 ∨ raw.length = 2 →
      analyze_price_distribution raw part titles minp =
        ⟨raw.sum / (raw.length : ℚ), raw.sum / (raw.length : ℚ),
         raw.sum / (raw.length : ℚ), 0, raw.length⟩) ∧
    (∀ (raw : List ℚ) (part : String) (titles : List String) (minp : ℚ),
      raw.length = 3 →
      analyze_price_distribution raw part titles minp =
        analyze_full raw part titles minp) ∧
    analyze_price_distribution [100, 105, 110] "misc" [] 0 = ⟨100, 100, 105, 0, 3⟩ := by
  refine ⟨?_, ?_, ?_, ?_⟩
  · intro part titles minp
    simp [analyze_price_distribution]
  · intro raw part titles minp h
    have hne : raw ≠ [] := by
      intro hc
      subst hc
      simp at h
    have hlt : raw.length < 3 := by omega
    unfold analyze_price_distribution
    rw [if_neg hne, if_pos hlt]
  · intro raw part titles minp h3
    have hne : raw ≠ [] := by
      intro hc
      subst hc
      simp at h3
    have hge : ¬ raw.length < 3 := by omega
    unfold analyze_price_distribution
    rw [if_neg hne, if_neg hge]
  · have hc : cleanedPrices [100, 105, 110] "misc" [] 0 = [100, 105, 110] := by decide
    have hs : pysorted [100, 105, 110] = [100, 105, 110] := by decide
    have hp5 : get_percentile [100, 105, 110] 5 = 201/2 := by
      norm_num [get_percentile, List.getD]
    have hp25 : get_percentile [100, 105, 110] 25 = 205/2 := by
      norm_num [get_percentile, List.getD]
    have hp50 : get_percentile [100, 105, 110] 50 = 105 := by
      norm_num [get_percentile, List.getD]
    have hs1 : small_round (201/2) = 100 := by norm_num [small_round, pyround]
    have hs2 : small_round (205/2) = 100 := by norm_num [small_round, pyround]
    have hs3 : small_round 105 = 105 := by norm_num [small_round, pyround]
    have ht : preTiers [100, 105, 110] = (100, 100, 105) := by
      norm_num [preTiers, hp5, hp25, hp50, hs1, hs2, hs3]
    have htb : tieBreak [100, 105, 110] (100, 100, 105) = (100, 100, 105) := by
      norm_num [tieBreak]
    simp [analyze_price_distribution, analyze_full, hc, hs, ht, htb]

theorem C2_boundary_behavior_witness :
    analyze_price_distribution [] "engine" [] 5 = ⟨0, 0, 0, 0, 0⟩ ∧
    analyze_price_distribution [40, 60] "engine" [] 0 = ⟨50, 50, 50, 0, 2⟩ ∧
    analyze_price_distribution [100, 105, 110] "misc" [] 0 =
      analyze_full [100, 105, 110] "misc" [] 0 := by
  refine ⟨C2_boundary_behavior.1 "engine" [] 5, ?_,
    C2_boundary_behavior.2.2.1 [100, 105, 110] "misc" [] 0 rfl⟩
  have h := C2_boundary_behavior.2.1 [40, 60] "engine" [] 0 (Or.inr rfl)
  norm_num at h
  convert h using 2 <;> norm_num

/-! ### Percentile monotonicity and the tier ordering -/

theorem pysorted_sorted (l : List ℚ) : List.Sorted (· ≤ ·) (pysorted l) :=
  List.sorted_insertionSort _ l

theorem pysorted_length (l : List ℚ) : (pysorted l).length = l.length :=
  (List.perm_insertionSort _ l).length_eq

theorem getD_of_lt {d : List ℚ} {i : ℕ} (h : i < d.length) :
    d.getD i 0 = d.get ⟨i, h⟩ := by
  simp [List.getD_eq_getElem?_getD, List.getElem?_eq_getElem h]

theorem sorted_getD_mono {d : List ℚ} (hs : List.Sorted (· ≤ ·) d)
    {i j : ℕ} (hij : i ≤ j) (hj : j < d.length) :
    d.getD i 0 ≤ d.getD j 0 := by
  have hi : i < d.length := lt_of_le_of_lt hij hj
  rw [getD_of_lt hi, getD_of_lt hj]
  exact hs.rel_get_of_le (by exact hij)

set_option maxHeartbeats 1000000 in
theorem get_percentile_mono {d : List ℚ} (hs : List.Sorted (· ≤ ·) d)
    (hne : d ≠ []) {p q : ℚ} (hp0 : 0 ≤ p) (hpq : p ≤ q) (hq100 : q ≤ 100) :
    get_percentile d p ≤ get_percentile d q := by
  by_cases h1 : d.length = 1
  · unfold get_percentile
    rw [if_pos h1, if_pos h1]
  · have hpos : 0 < d.length := List.length_pos.mpr hne
    have hlen : 2 ≤ d.length := by omega
    rw [get_percentile_of_ne_one d p h1, get_percentile_of_ne_one d q h1]
    set n := d.length with hn
    set ip : ℚ := (p / 100) * ((n : ℚ) - 1) with hip
    set iq : ℚ := (q / 100) * ((n : ℚ) - 1) with hiq
    have hn1 : (1 : ℚ) ≤ (n : ℚ) - 1 := by
      have : (2 : ℚ) ≤ (n : ℚ) := by exact_mod_cast hlen
      linarith
    have hip0 : 0 ≤ ip := mul_nonneg (by positivity) (by linarith)
    have hq0 : 0 ≤ q := le_trans hp0 hpq
    have hiq0 : 0 ≤ iq := mul_nonneg (by positivity) (by linarith)
    have hipq : ip ≤ iq := by
      rw [hip, hiq]
      have : p / 100 ≤ q / 100 := by linarith
      nlinarith
    have hiqn : iq ≤ (n : ℚ) - 1 := by
      have hq1 : q / 100 ≤ 1 := by linarith
      rw [hiq]
      nlinarith
    have hflp0 : 0 ≤ ⌊ip⌋ := Int.floor_nonneg.mpr hip0
    have hflq0 : 0 ≤ ⌊iq⌋ := Int.floor_nonneg.mpr hiq0
    have hflpq : ⌊ip⌋ ≤ ⌊iq⌋ := Int.floor_le_floor hipq
    have hflqn : ⌊iq⌋ ≤ (n : ℤ) - 1 := by
      have h := Int.floor_le_floor hiqn
      rwa [show ((n : ℚ) - 1) = (((n : ℤ) - 1 : ℤ) : ℚ) by push_cast; ring,
        Int.floor_intCast] at h
    have hflpn : ⌊ip⌋ ≤ (n : ℤ) - 1 := le_trans hflpq hflqn
    have hlpcast : ((⌊ip⌋.toNat : ℕ) : ℚ) = (⌊ip⌋ : ℚ) := by
      exact_mod_cast Int.toNat_of_nonneg hflp0
    have hlqcast : ((⌊iq⌋.toNat : ℕ) : ℚ) = (⌊iq⌋ : ℚ) := by
      exact_mod_cast Int.toNat_of_nonneg hflq0
    have hwp0 : 0 ≤ ip - ((⌊ip⌋.toNat : ℕ) : ℚ) := by
      rw [hlpcast]; linarith [Int.floor_le ip]
    have hwp1 : ip - ((⌊ip⌋.toNat : ℕ) : ℚ) < 1 := by
      rw [hlpcast]; linarith [Int.lt_floor_add_one ip]
    have hwq0 : 0 ≤ iq - ((⌊iq⌋.toNat : ℕ) : ℚ) := by
      rw [hlqcast]; linarith [Int.floor_le iq]
    have hwq1 : iq - ((⌊iq⌋.toNat : ℕ) : ℚ) < 1 := by
      rw [hlqcast]; linarith [Int.lt_floor_add_one iq]
    have hlqlt : ⌊iq⌋.toNat < n := by omega
    have huplt : min (⌊ip⌋.toNat + 1) (n - 1) < n := by omega
    have huqlt : min (⌊iq⌋.toNat + 1) (n - 1) < n := by omega
    have g1 : d.getD ⌊ip⌋.toNat 0 ≤ d.getD (min (⌊ip⌋.toNat + 1) (n - 1)) 0 :=
      sorted_getD_mono hs (by omega) huplt
    have g2 : d.getD ⌊iq⌋.toNat 0 ≤ d.getD (min (⌊iq⌋.toNat + 1) (n - 1)) 0 :=
      sorted_getD_mono hs (by omega) huqlt
    by_cases hfl : ⌊ip⌋ = ⌊iq⌋
    · have hlpq' : ⌊ip⌋.toNat = ⌊iq⌋.toNat := by rw [hfl]
      rw [hlpq']
      have hwpq : ip - ((⌊iq⌋.toNat : ℕ) : ℚ) ≤ iq - ((⌊iq⌋.toNat : ℕ) : ℚ) := by linarith
      rw [hlpq'] at hwp0 hwp1
      nlinarith [g2]
    · have hfllt : ⌊ip⌋ < ⌊iq⌋ := lt_of_le_of_ne hflpq hfl
      have hup_le_lq : min (⌊ip⌋.toNat + 1) (n - 1) ≤ ⌊iq⌋.toNat := by omega
      have gmid : d.getD (min (⌊ip⌋.toNat + 1) (n - 1)) 0 ≤ d.getD ⌊iq⌋.toNat 0 :=
        sorted_getD_mono hs hup_le_lq hlqlt
      have hA : d.getD ⌊ip⌋.toNat 0 * (1 - (ip - ((⌊ip⌋.toNat : ℕ) : ℚ))) +
          d.getD (min (⌊ip⌋.toNat + 1) (n - 1)) 0 * (ip - ((⌊ip⌋.toNat : ℕ) : ℚ)) ≤
          d.getD (min (⌊ip⌋.toNat + 1) (n - 1)) 0 := by nlinarith [g1]
      have hB : d.getD ⌊iq⌋.toNat 0 ≤
          d.getD ⌊iq⌋.toNat 0 * (1 - (iq - ((⌊iq⌋.toNat : ℕ) : ℚ))) +
          d.getD (min (⌊iq⌋.toNat + 1) (n - 1)) 0 * (iq - ((⌊iq⌋.toNat : ℕ) : ℚ)) := by
        nlinarith [g2]
      linarith

theorem preTiers_ordered {s : List ℚ} (hs : List.Sorted (· ≤ ·) s) (hne : s ≠ []) :
    (preTiers s).1 ≤ (preTiers s).2.1 ∧ (preTiers s).2.1 ≤ (preTiers s).2.2 := by
  unfold preTiers
  split_ifs with h
  · exact ⟨small_round_mono' (get_percentile_mono hs hne (by norm_num) (by norm_num)
        (by norm_num)),
      small_round_mono' (get_percentile_mono hs hne (by norm_num) (by norm_num)
        (by norm_num))⟩
  · exact ⟨smart_round_mono' (get_percentile_mono hs hne (by norm_num) (by norm_num)
        (by norm_num)),
      smart_round_mono' (get_percentile_mono hs hne (by norm_num) (by norm_num)
        (by norm_num))⟩

theorem tieBreak_avg_le_high (s : List ℚ) (t : ℚ × ℚ × ℚ)
    (hord : t.1 ≤ t.2.1 ∧ t.2.1 ≤ t.2.2) :
    (tieBreak s t).2.1 ≤ (tieBreak s t).2.2 := by
  have hstep : (0 : ℚ) < tieStep s := by
    unfold tieStep
    split_ifs <;> norm_num
  unfold tieBreak
  split_ifs with h hr
  · obtain ⟨-, h2, -⟩ := h
    dsimp only
    linarith
  · exact hord.2
  · exact hord.2

theorem tieBreak_eq_of_not_fired {s : List ℚ} {t : ℚ × ℚ × ℚ}
    (h : ¬ (t.1 = t.2.1 ∧ t.2.1 = t.2.2 ∧ 10 < listMax s - listMin s)) :
    tieBreak s t = t := by
  unfold tieBreak
  split_ifs with h1 h2
  · exact absurd ⟨h1.1, h1.2.1, h2⟩ h
  · rfl
  · rfl

theorem analyze_full_of_ne_nil (raw : List ℚ) (part : String)
    (titles : List String) (minp : ℚ)
    (h : cleanedPrices raw part titles minp ≠ []) :
    analyze_full raw part titles minp =
      ⟨(tieBreak (pysorted (cleanedPrices raw part titles minp))
          (preTiers (pysorted (cleanedPrices raw part titles minp)))).1,
       (tieBreak (pysorted (cleanedPrices raw part titles minp))
          (preTiers (pysorted (cleanedPrices raw part titles minp)))).2.1,
       (tieBreak (pysorted (cleanedPrices raw part titles minp))
          (preTiers (pysorted (cleanedPrices raw part titles minp)))).2.2,
       raw.length - (cleanedPrices raw part titles minp).length,
       (cleanedPrices raw part titles minp).length⟩ := by
  simp only [analyze_full, if_neg h]

/-- C1 (amended): with ≥ 3 raw listings and ≥ 3 cleaned prices the analyzer
always returns `average ≤ high`, and whenever the tie-break does not fire
(the three rounded tiers are not all equal, or the observed range is ≤ $10)
it returns `low ≤ average ≤ high`; the tie-break clamp
`max(budget − step, min(prices))` can push `low` above `average` (and even
above `high`), and all three tiers can coincide with ≥ 3 cleaned points. -/
theorem C1_tier_order (raw : List ℚ) (part : String) (titles : List String)
    (minp : ℚ) (hraw : 3 ≤ raw.length)
    (hcl : 3 ≤ (cleanedPrices raw part titles minp).length) :
    (analyze_price_distribution raw part titles minp).average ≤
      (analyze_price_distribution raw part titles minp).high ∧
    (¬ ((preTiers (pysorted (cleanedPrices raw part titles minp))).1 =
          (preTiers (pysorted (cleanedPrices raw part titles minp))).2.1 ∧
        (preTiers (pysorted (cleanedPrices raw part titles minp))).2.1 =
          (preTiers (pysorted (cleanedPrices raw part titles minp))).2.2 ∧
        10 < listMax (pysorted (cleanedPrices raw part titles minp)) -
          listMin (pysorted (cleanedPrices raw part titles minp))) →
      (analyze_price_distribution raw part titles minp).low ≤
          (analyze_price_distribution raw part titles minp).average ∧
        (analyze_price_distribution raw part titles minp).average ≤
          (analyze_price_distribution raw part titles minp).high) := by
  have hne : raw ≠ [] := by
    intro hc
    subst hc
    simp at hraw
  have hnlt : ¬ raw.length < 3 := by omega
  have hana : analyze_price_distribution raw part titles minp
      = analyze_full raw part titles minp := by
    unfold analyze_price_distribution
    rw [if_neg hne, if_neg hnlt]
  have hcpne : cleanedPrices raw part titles minp ≠ [] := by
    intro hc
    rw [hc] at hcl
    simp at hcl
  have hslen : (pysorted (cleanedPrices raw part titles minp)).length
      = (cleanedPrices raw part titles minp).length := pysorted_length _
  have hsne : pysorted (cleanedPrices raw part titles minp) ≠ [] := by
    intro hc
    rw [hc] at hslen
    simp at hslen
    omega
  have hord := preTiers_ordered (pysorted_sorted (cleanedPrices raw part titles minp)) hsne
  rw [hana, analyze_full_of_ne_nil raw part titles minp hcpne]
  dsimp only
  constructor
  · exact tieBreak_avg_le_high _ _ hord
  · intro hnf
    rw [tieBreak_eq_of_not_fired hnf]
    exact hord

/-- C1 counterexample: on the ten cleaned prices
`[506, 506, 507, 507, 508, 508, 509, 512, 515, 518]` all three rounded tiers
are 500, the range is 12, and the tie-break clamp returns
`low = 506 > high = 505 > average = 500`, refuting `low ≤ average ≤ high`;
and `[100, 100, 100]` yields three equal tiers with 3 cleaned points,
refuting "all equal only when ≤ 2 points". -/
theorem C1_tier_order_cex :
    analyze_price_distribution [506, 506, 507, 507, 508, 508, 509, 512, 515, 518]
      "misc" [] 0 = ⟨506, 500, 505, 0, 10⟩ ∧
    ¬ ((analyze_price_distribution [506, 506, 507, 507, 508, 508, 509, 512, 515, 518]
        "misc" [] 0).low ≤
      (analyze_price_distribution [506, 506, 507, 507, 508, 508, 509, 512, 515, 518]
        "misc" [] 0).average) ∧
    analyze_price_distribution [100, 100, 100] "misc" [] 0 = ⟨100, 100, 100, 0, 3⟩ ∧
    3 ≤ (cleanedPrices [100, 100, 100] "misc" [] 0).length := by
  have hmain : analyze_price_distribution [506, 506, 507, 507, 508, 508, 509, 512, 515, 518]
      "misc" [] 0 = ⟨506, 500, 505, 0, 10⟩ := by
    have hs : pysorted [506, 506, 507, 507, 508, 508, 509, 512, 515, 518]
        = [506, 506, 507, 507, 508, 508, 509, 512, 515, 518] := by decide
    have hq1 : iqr_q1 [506, 506, 507, 507, 508, 508, 509, 512, 515, 518] = 507 := by
      norm_num [iqr_q1, hs, List.getD]
    have hq3 : iqr_q3 [506, 506, 507, 507, 508, 508, 509, 512, 515, 518] = 512 := by
      norm_num [iqr_q3, hs, List.getD]
    have hlb : iqr_lower_bound [506, 506, 507, 507, 508, 508, 509, 512, 515, 518]
        = 999/2 := by
      norm_num [iqr_lower_bound, hq1, hq3]
    have hub : iqr_upper_bound [506, 506, 507, 507, 508, 508, 509, 512, 515, 518]
        = 1039/2 := by
      norm_num [iqr_upper_bound, hq1, hq3]
    have hiqr : iqrStage [506, 506, 507, 507, 508, 508, 509, 512, 515, 518]
        = [506, 506, 507, 507, 508, 508, 509, 512, 515, 518] := by
      norm_num [iqrStage, hlb, hub]
    have hkw : keywordStage (suspicious_keywords (pylower "misc"))
        [506, 506, 507, 507, 508, 508, 509, 512, 515, 518] []
        = [506, 506, 507, 507, 508, 508, 509, 512, 515, 518] := by decide
    have hfl : floorStage 0 [506, 506, 507, 507, 508, 508, 509, 512, 515, 518]
        = [506, 506, 507, 507, 508, 508, 509, 512, 515, 518] := by decide
    have hc : cleanedPrices [506, 506, 507, 507, 508, 508, 509, 512, 515, 518]
        "misc" [] 0 = [506, 506, 507, 507, 508, 508, 509, 512, 515, 518] := by
      rw [cleanedPrices, hkw, hfl, hiqr]
    have e2 : (2 : ℤ).toNat = 2 := rfl
    have e4 : (4 : ℤ).toNat = 4 := rfl
    have hp10 : get_percentile [506, 506, 507, 507, 508, 508, 509, 512, 515, 518] 10
        = 506 := by
      norm_num [get_percentile, List.getD, e2, e4]
    have hp30 : get_percentile [506, 506, 507, 507, 508, 508, 509, 512, 515, 518] 30
        = 507 := by
      norm_num [get_percentile, List.getD, e2, e4]
    have hp50 : get_percentile [506, 506, 507, 507, 508, 508, 509, 512, 515, 518] 50
        = 508 := by
      norm_num [get_percentile, List.getD, e2, e4]
    have hs1 : smart_round 506 = 500 := by norm_num [smart_round, pyround]
    have hs2 : smart_round 507 = 500 := by norm_num [smart_round, pyround]
    have hs3 : smart_round 508 = 500 := by norm_num [smart_round, pyround]
    have ht : preTiers [506, 506, 507, 507, 508, 508, 509, 512, 515, 518]
        = (500, 500, 500) := by
      norm_num [preTiers, hp10, hp30, hp50, hs1, hs2, hs3]
    have hmax : listMax [506, 506, 507, 507, 508, 508, 509, 512, 515, 518] = 518 := by
      decide
    have hmin : listMin [506, 506, 507, 507, 508, 508, 509, 512, 515, 518] = 506 := by
      decide
    have htb : tieBreak [506, 506, 507, 507, 508, 508, 509, 512, 515, 518]
        (500, 500, 500) = (506, 500, 505) := by
      norm_num [tieBreak, tieStep, hmax, hmin, max_def]
    simp [analyze_price_distribution, analyze_full, hc, hs, ht, htb]
  have hdeg : analyze_price_distribution [100, 100, 100] "misc" [] 0
      = ⟨100, 100, 100, 0, 3⟩ := by
    have hc : cleanedPrices [100, 100, 100] "misc" [] 0 = [100, 100, 100] := by decide
    have ht : preTiers [100, 100, 100] = (100, 100, 100) := by
      norm_num [preTiers, get_percentile, List.getD, small_round, pyround]
    have htb : tieBreak [100, 100, 100] (100, 100, 100) = (100, 100, 100) := by
      norm_num [tieBreak, listMax, listMin]
    have hs : pysorted [100, 100, 100] = [100, 100, 100] := by decide
    simp [analyze_price_distribution, analyze_full, hc, hs, ht, htb]
  refine ⟨hmain, ?_, hdeg, by decide⟩
  rw [hmain]
  norm_num

theorem C1_tier_order_witness :
    (analyze_price_distribution [100, 105, 110] "misc" [] 0).average ≤
      (analyze_price_distribution [100, 105, 110] "misc" [] 0).high ∧
    ((analyze_price_distribution [100, 105, 110] "misc" [] 0).low ≤
        (analyze_price_distribution [100, 105, 110] "misc" [] 0).average ∧
      (analyze_price_distribution [100, 105, 110] "misc" [] 0).average ≤
        (analyze_price_distribution [100, 105, 110] "misc" [] 0).high) := by
  have h := C1_tier_order [100, 105, 110] "misc" [] 0 (by norm_num) (by decide)
  refine ⟨h.1, h.2 ?_⟩
  have hc : cleanedPrices [100, 105, 110] "misc" [] 0 = [100, 105, 110] := by decide
  have hs : pysorted [100, 105, 110] = [100, 105, 110] := by decide
  have hp5 : get_percentile [100, 105, 110] 5 = 201/2 := by
    norm_num [get_percentile, List.getD]
  have hp25 : get_percentile [100, 105, 110] 25 = 205/2 := by
    norm_num [get_percentile, List.getD]
  have hp50 : get_percentile [100, 105, 110] 50 = 105 := by
    norm_num [get_percentile, List.getD]
  have hs1 : small_round (201/2) = 100 := by norm_num [small_round, pyround]
  have hs2 : small_round (205/2) = 100 := by norm_num [small_round, pyround]
  have hs3 : small_round 105 = 105 := by norm_num [small_round, pyround]
  have ht : preTiers [100, 105, 110] = (100, 100, 105) := by
    norm_num [preTiers, hp5, hp25, hp50, hs1, hs2, hs3]
  rw [hc, hs, ht]
  rintro ⟨-, habs, -⟩
  norm_num at habs

/-! ### IQR rejection (C7) -/

/-- C7: IQR rejection leaves any list of fewer than 10 prices untouched (a
9-item list with an extreme outlier included); on ≥ 10 prices it removes
exactly the occurrences strictly outside `[Q1 − 1.5·IQR, Q3 + 1.5·IQR]`,
with Q1 and Q3 the sorted values at positional indices `n//4` and `3n//4`
(which differ from interpolated percentiles: on `[1..10]` positional Q1 is 3
while the interpolated 25th percentile is 3.25); a 10-item list with an
extreme outlier is filtered. -/
theorem C7_iqr_spec :
    (∀ l : List ℚ, l.length ≤ 9 → iqrStage l = l) ∧
    (∀ (l : List ℚ) (x : ℚ), 10 ≤ l.length →
      (iqrStage l).count x =
        (if x < iqr_lower_bound l ∨ iqr_upper_bound l < x then 0 else l.count x)) ∧
    iqr_q1 [1, 2, 3, 4, 5, 6, 7, 8, 9, 10] = 3 ∧
    get_percentile (pysorted [1, 2, 3, 4, 5, 6, 7, 8, 9, 10]) 25 = 13/4 ∧
    iqrStage [100, 100, 100, 100, 100, 100, 100, 100, 10000]
      = [100, 100, 100, 100, 100, 100, 100, 100, 10000] ∧
    iqrStage [100, 100, 100, 100, 100, 100, 100, 100, 100, 10000]
      = [100, 100, 100, 100, 100, 100, 100, 100, 100] := by
  have hsorted10 : pysorted [(1 : ℚ), 2, 3, 4, 5, 6, 7, 8, 9, 10]
      = [1, 2, 3, 4, 5, 6, 7, 8, 9, 10] := by decide
  refine ⟨?_, ?_, ?_, ?_, ?_, ?_⟩
  · intro l hl
    unfold iqrStage
    rw [if_neg (by omega)]
  · intro l x hl
    unfold iqrStage
    rw [if_pos hl]
    by_cases hx : x < iqr_lower_bound l ∨ iqr_upper_bound l < x
    · rw [if_pos hx]
      refine List.count_eq_zero.mpr ?_
      intro hmem
      have hpred := List.of_mem_filter hmem
      simp only [Bool.not_eq_true', Bool.or_eq_false_iff, decide_eq_false_iff_not] at hpred
      rcases hx with hx | hx
      · exact hpred.1 hx
      · exact hpred.2 hx
    · rw [if_neg hx]
      push_neg at hx
      refine List.count_filter ?_
      simp only [Bool.not_eq_true', Bool.or_eq_false_iff, decide_eq_false_iff_not]
      exact ⟨not_lt.mpr hx.1, not_lt.mpr hx.2⟩
  · norm_num [iqr_q1, hsorted10, List.getD]
  · have e2 : (2 : ℤ).toNat = 2 := rfl
    norm_num [hsorted10, get_percentile, List.getD, e2]
  · unfold iqrStage
    rw [if_neg (by norm_num)]
  · have hs : pysorted [(100 : ℚ), 100, 100, 100, 100, 100, 100, 100, 100, 10000]
        = [100, 100, 100, 100, 100, 100, 100, 100, 100, 10000] := by decide
    have hq1 : iqr_q1 [(100 : ℚ), 100, 100, 100, 100, 100, 100, 100, 100, 10000]
        = 100 := by
      norm_num [iqr_q1, hs, List.getD]
    have hq3 : iqr_q3 [(100 : ℚ), 100, 100, 100, 100, 100, 100, 100, 100, 10000]
        = 100 := by
      norm_num [iqr_q3, hs, List.getD]
    have hlb : iqr_lower_bound [(100 : ℚ), 100, 100, 100, 100, 100, 100, 100, 100, 10000]
        = 100 := by
      norm_num [iqr_lower_bound, hq1, hq3]
    have hub : iqr_upper_bound [(100 : ℚ), 100, 100, 100, 100, 100, 100, 100, 100, 10000]
        = 100 := by
      norm_num [iqr_upper_bound, hq1, hq3]
    norm_num [iqrStage, hlb, hub]

theorem C7_iqr_witness :
    iqrStage [100, 100, 100, 100, 100, 100, 100, 100, 10000]
      = [100, 100, 100, 100, 100, 100, 100, 100, 10000] ∧
    (iqrStage [100, 100, 100, 100, 100, 100, 100, 100, 100, 10000]).count 10000 = 0 ∧
    (iqrStage [100, 100, 100, 100, 100, 100, 100, 100, 100, 10000]).count 100 = 9 := by
  have hs : pysorted [(100 : ℚ), 100, 100, 100, 100, 100, 100, 100, 100, 10000]
      = [100, 100, 100, 100, 100, 100, 100, 100, 100, 10000] := by decide
  have hq1 : iqr_q1 [(100 : ℚ), 100, 100, 100, 100, 100, 100, 100, 100, 10000] = 100 := by
    norm_num [iqr_q1, hs, List.getD]
  have hq3 : iqr_q3 [(100 : ℚ), 100, 100, 100, 100, 100, 100, 100, 100, 10000] = 100 := by
    norm_num [iqr_q3, hs, List.getD]
  have hlb : iqr_lower_bound [(100 : ℚ), 100, 100, 100, 100, 100, 100, 100, 100, 10000]
      = 100 := by
    norm_num [iqr_lower_bound, hq1, hq3]
  have hub : iqr_upper_bound [(100 : ℚ), 100, 100, 100, 100, 100, 100, 100, 100, 10000]
      = 100 := by
    norm_num [iqr_upper_bound, hq1, hq3]
  refine ⟨C7_iqr_spec.1 [100, 100, 100, 100, 100, 100, 100, 100, 10000] (by norm_num),
    ?_, ?_⟩
  · rw [C7_iqr_spec.2.1 [100, 100, 100, 100, 100, 100, 100, 100, 100, 10000] 10000
      (by norm_num)]
    rw [hlb, hub]
    norm_num
  · rw [C7_iqr_spec.2.1 [100, 100, 100, 100, 100, 100, 100, 100, 100, 10000] 100
      (by norm_num)]
    rw [hlb, hub]
    norm_num [List.count_cons]

/-! ### Keyword rejection (C8) -/

theorem keywordStage_nil_titles_of_susp {kws : List String}
    (h : kws.any (fun kw => strIn kw (pylower "")) = true) :
    ∀ l : List ℚ, keywordStage kws l [] = [] := by
  intro l
  induction l with
  | nil => rfl
  | cons p ps ih =>
    simp only [keywordStage, List.headD_nil, List.tail_nil]
    rw [if_pos h]
    exact ih

/-- Dropping a listing whose (lowered) title contains a suspicious keyword
does not change the output of the keyword stage: the listing is removed
there no matter what its price is. -/
theorem keywordStage_erase_suspicious (kws : List String) :
    ∀ (prices : List ℚ) (titles : List String) (i : ℕ),
    i < prices.length →
    kws.any (fun kw => strIn kw (pylower (titles.getD i ""))) = true →
    keywordStage kws prices titles
      = keywordStage kws (prices.eraseIdx i) (titles.eraseIdx i) := by
  intro prices
  induction prices with
  | nil =>
    intro titles i h
    simp at h
  | cons p ps ih =>
    intro titles i hi hsusp
    cases i with
    | zero =>
      have hhead : titles.getD 0 "" = titles.headD "" := by
        cases titles <;> rfl
      rw [hhead] at hsusp
      have ht : titles.eraseIdx 0 = titles.tail := by
        cases titles <;> rfl
      rw [List.eraseIdx_cons_zero, ht]
      simp only [keywordStage]
      rw [if_pos hsusp]
    | succ j =>
      have hj : j < ps.length := by
        simp at hi
        omega
      cases titles with
      | nil =>
        simp only [List.getD] at hsusp
        simp only [List.eraseIdx_nil]
        rw [keywordStage_nil_titles_of_susp hsusp (p :: ps),
          keywordStage_nil_titles_of_susp hsusp ((p :: ps).eraseIdx (j + 1))]
      | cons t ts =>
        have hsusp' : kws.any (fun kw => strIn kw (pylower (ts.getD j ""))) = true := by
          simpa using hsusp
        rw [List.eraseIdx_cons_succ, List.eraseIdx_cons_succ]
        simp only [keywordStage, List.headD_cons, List.tail_cons]
        rw [ih ts j hj hsusp']

/-- C8: for part name "engine" (matched case-insensitively through
`part_name.lower()`), a listing whose lowered title contains a configured
suspicious keyword is removed at the keyword stage for every price value and
every minimum-price setting (the cleaned output is the same as if the
listing were absent); in particular "Engine Oil Filter Cap" contains the
configured keyword "oil filter". -/
theorem C8_engine_keyword_filter :
    (∀ (partName : String) (prices : List ℚ) (titles : List String) (i : ℕ)
      (minp : ℚ),
      pylower partName = "engine" →
      i < prices.length →
      (suspicious_keywords "engine").any
        (fun kw => strIn kw (pylower (titles.getD i ""))) = true →
      cleanedPrices prices partName titles minp
        = cleanedPrices (prices.eraseIdx i) partName (titles.eraseIdx i) minp) ∧
    strIn "oil filter" (pylower "Engine Oil Filter Cap") = true ∧
    "oil filter" ∈ suspicious_keywords "engine" := by
  refine ⟨?_, by decide, by decide⟩
  intro partName prices titles i minp hpart hi hsusp
  unfold cleanedPrices
  rw [hpart]
  rw [keywordStage_erase_suspicious (suspicious_keywords "engine") prices titles i hi hsusp]

theorem C8_engine_keyword_filter_witness :
    cleanedPrices [50, 999] "Engine" ["Engine Oil Filter Cap", "Engine"] 7
      = cleanedPrices [999] "Engine" ["Engine"] 7 ∧
    strIn "oil filter" (pylower "Engine Oil Filter Cap") = true :=
  ⟨C8_engine_keyword_filter.1 "Engine" [50, 999] ["Engine Oil Filter Cap", "Engine"] 0 7
      (by decide) (by decide) (by decide),
   C8_engine_keyword_filter.2.1⟩

/-! ### The bid formula (C3, C4) -/

/-- The `else`-branch formula of `calculate_bid`:
`300 + excess * (0.25 + 0.40 * sqrt((parts_value - 3000) / 15000))`. -/
noncomputable def bid_excess_formula (parts_value : ℝ) : ℝ :=
  300 + (parts_value - 3000) *
    (0.25 + 0.40 * Real.sqrt ((parts_value - 3000) / 15000))

/-- `calculate_bid` from `calculate_bid_amounts`: 0 for nonpositive totals, a
flat $300 up to $3000, then the concave excess formula. -/
noncomputable def calculate_bid (parts_value : ℝ) : ℝ :=
  if parts_value ≤ 0 then 0
  else if parts_value ≤ 3000 then 300
  else bid_excess_formula parts_value

theorem bid_factor_nonneg (v : ℝ) :
    0 ≤ 0.25 + 0.40 * Real.sqrt ((v - 3000) / 15000) := by
  have := Real.sqrt_nonneg ((v - 3000) / 15000)
  nlinarith

theorem bid_excess_ge_300 {v : ℝ} (hv : 3000 < v) : 300 ≤ bid_excess_formula v := by
  unfold bid_excess_formula
  have h1 := bid_factor_nonneg v
  nlinarith

theorem bid_excess_le_300 {v : ℝ} (hv : v ≤ 3000) : bid_excess_formula v ≤ 300 := by
  unfold bid_excess_formula
  have hs : Real.sqrt ((v - 3000) / 15000) = 0 := by
    apply Real.sqrt_eq_zero_of_nonpos
    have h1 : v - 3000 ≤ 0 := by linarith
    have h2 : (0 : ℝ) < 15000 := by norm_num
    exact div_nonpos_of_nonpos_of_nonneg h1 h2.le
  rw [hs]
  nlinarith

theorem bid_excess_mono {x y : ℝ} (hx : 3000 < x) (hxy : x ≤ y) :
    bid_excess_formula x ≤ bid_excess_formula y := by
  unfold bid_excess_formula
  have h1 : (0 : ℝ) ≤ x - 3000 := by linarith
  have h2 : x - 3000 ≤ y - 3000 := by linarith
  have h3 : Real.sqrt ((x - 3000) / 15000) ≤ Real.sqrt ((y - 3000) / 15000) :=
    Real.sqrt_le_sqrt (by linarith)
  have h4 := bid_factor_nonneg x
  have h5 := bid_factor_nonneg y
  nlinarith

theorem bid_excess_continuous : Continuous bid_excess_formula := by
  unfold bid_excess_formula
  have hs : Continuous fun v : ℝ => Real.sqrt ((v - 3000) / 15000) :=
    Real.continuous_sqrt.comp ((continuous_id.sub continuous_const).div_const 15000)
  exact continuous_const.add ((continuous_id.sub continuous_const).mul
    (continuous_const.add (continuous_const.mul hs)))

/-- C3: the bid formula returns 0 for nonpositive totals, a flat $300 for
totals in (0, 3000], and `300 + excess·(0.25 + 0.40·sqrt(excess/15000))`
above $3000; in particular `bid(0)=0`, `bid(3000)=300`, `bid(18000)=10050`. -/
theorem C3_calculate_bid_spec :
    (∀ v : ℝ, (v ≤ 0 → calculate_bid v = 0) ∧
      (0 < v → v ≤ 3000 → calculate_bid v = 300) ∧
      (3000 < v → calculate_bid v =
        300 + (v - 3000) * (0.25 + 0.40 * Real.sqrt ((v - 3000) / 15000)))) ∧
    calculate_bid 0 = 0 ∧ calculate_bid 3000 = 300 ∧ calculate_bid 18000 = 10050 := by
  have hb : ∀ v : ℝ, 3000 < v → calculate_bid v =
      300 + (v - 3000) * (0.25 + 0.40 * Real.sqrt ((v - 3000) / 15000)) := by
    intro v hv
    unfold calculate_bid bid_excess_formula
    rw [if_neg (by linarith), if_neg (by linarith)]
  refine ⟨fun v => ⟨?_, ?_, hb v⟩, ?_, ?_, ?_⟩
  · intro h
    unfold calculate_bid
    rw [if_pos h]
  · intro h1 h2
    unfold calculate_bid
    rw [if_neg (by linarith), if_pos h2]
  · norm_num [calculate_bid]
  · norm_num [calculate_bid]
  · rw [hb 18000 (by norm_num)]
    have h1 : ((18000 : ℝ) - 3000) / 15000 = 1 := by norm_num
    rw [h1, Real.sqrt_one]
    norm_num

theorem C3_calculate_bid_witness :
    calculate_bid (-5) = 0 ∧ calculate_bid 100 = 300 ∧
    calculate_bid 18000 =
      300 + (18000 - 3000) * (0.25 + 0.40 * Real.sqrt ((18000 - 3000) / 15000)) :=
  ⟨(C3_calculate_bid_spec.1 (-5)).1 (by norm_num),
   (C3_calculate_bid_spec.1 100).2.1 (by norm_num) (by norm_num),
   (C3_calculate_bid_spec.1 18000).2.2 (by norm_num)⟩

/-- C4 (amended): the bid function is monotone nondecreasing on all of ℝ and
continuous at every point other than 0 (in particular at the $3000
boundary); at 0 it jumps from `bid(0) = 0` to the flat $300 level, so it is
not continuous there. -/
theorem C4_bid_monotone_continuity :
    Monotone calculate_bid ∧
    (∀ x : ℝ, x ≠ 0 → ContinuousAt calculate_bid x) := by
  constructor
  · intro x y hxy
    unfold calculate_bid
    split_ifs with hx0 hy0 hy3 hy0' hy3' hx3 hy0'' hy3''
    · exact le_refl 0
    · norm_num
    · linarith [bid_excess_ge_300 (show (3000 : ℝ) < y by linarith)]
    · linarith
    · exact le_refl 300
    · linarith [bid_excess_ge_300 (show (3000 : ℝ) < y by linarith)]
    · linarith
    · linarith
    · exact bid_excess_mono (by linarith) hxy
  · intro x hx
    rcases lt_trichotomy x 0 with hneg | hzero | hpos
    · -- locally the constant 0
      apply Filter.EventuallyEq.continuousAt
      filter_upwards [Iio_mem_nhds hneg] with v hv
      unfold calculate_bid
      rw [if_pos (le_of_lt hv)]
    · exact absurd hzero hx
    · -- on `Ioi 0` the function agrees with `max 300 (bid_excess_formula ·)`,
      -- which is continuous
      have hcont : Continuous fun v : ℝ => max 300 (bid_excess_formula v) :=
        continuous_const.max bid_excess_continuous
      apply ContinuousAt.congr hcont.continuousAt
      filter_upwards [Ioi_mem_nhds hpos] with v hv
      unfold calculate_bid
      rw [if_neg (by exact not_le.mpr hv)]
      by_cases hv3 : v ≤ 3000
      · rw [if_pos hv3, max_eq_left (bid_excess_le_300 hv3)]
      · rw [if_neg hv3,
          max_eq_right (bid_excess_ge_300 (by linarith))]

/-- C4 counterexample: the bid function is not continuous at 0: it is 0 at 0
but equals 300 on all of (0, 3000], a jump discontinuity. -/
theorem C4_bid_continuity_cex :
    calculate_bid 0 = 0 ∧ calculate_bid 1 = 300 ∧
    ¬ ContinuousAt calculate_bid 0 := by
  have h0 : calculate_bid 0 = 0 := by norm_num [calculate_bid]
  refine ⟨h0, by norm_num [calculate_bid], ?_⟩
  intro h
  have hw : ContinuousWithinAt calculate_bid (Set.Ioi 0) 0 := h.continuousWithinAt
  have hev : calculate_bid =ᶠ[nhdsWithin 0 (Set.Ioi 0)] fun _ => 300 := by
    have h3 : Set.Iio (3000 : ℝ) ∈ nhds (0 : ℝ) := Iio_mem_nhds (by norm_num)
    filter_upwards [self_mem_nhdsWithin, mem_nhdsWithin_of_mem_nhds h3]
      with v hv1 hv2
    unfold calculate_bid
    rw [if_neg (by exact not_le.mpr hv1), if_pos (le_of_lt hv2)]
  have ht : Filter.Tendsto (fun _ : ℝ => (300 : ℝ))
      (nhdsWithin 0 (Set.Ioi 0)) (nhds 0) := by
    have := hw
    unfold ContinuousWithinAt at this
    rw [h0] at this
    exact this.congr' hev
  have h2 : Filter.Tendsto (fun _ : ℝ => (300 : ℝ))
      (nhdsWithin 0 (Set.Ioi 0)) (nhds 300) := tendsto_const_nhds
  have := tendsto_nhds_unique ht h2
  norm_num at this

theorem C4_bid_monotone_continuity_witness :
    calculate_bid 100 ≤ calculate_bid 200 ∧ ContinuousAt calculate_bid 3000 :=
  ⟨C4_bid_monotone_continuity.1 (by norm_num : (100 : ℝ) ≤ 200),
   C4_bid_monotone_continuity.2 3000 (by norm_num)⟩

/-! ### The AI-assisted analyzer (C5)

`_analyze_prices_with_ai` sends a prompt, strips markdown fences from the
response text, parses it as JSON, validates the required keys and the
confidence rating, and on *any* exception (parse error, missing keys,
non-string `confidence_rating` whose `.lower()` raises, or a price field
`float()` cannot coerce) falls back to `_analyze_price_distribution` on the
same listings.  JSON values are modelled by `JVal`; the external
`json.loads` is modelled as an arbitrary parse function
`String → Option (List (String × JVal))` (`none` = `JSONDecodeError`).
Python's `float()` on numeric strings is not modelled (no claim exercises
it); on numbers and booleans it is exact. -/

inductive JVal where
  | jnull
  | jbool (b : Bool)
  | jnum (q : ℚ)
  | jstr (s : String)
  | jarr (elems : List JVal)
  | jobj (fields : List (String × JVal))

/-- Python `.lower()` as invoked on `result.get('confidence_rating', '')`:
defined only for strings; any other value raises `AttributeError`. -/
def pyLowerVal : JVal → Option String
  | .jstr s => some (pylower s)
  | _ => none

/-- Python `float(x)` on a JSON value: exact on numbers and booleans,
raising (`none`) on null, arrays and objects; numeric-string coercion is
not modelled. -/
def pyFloatVal : JVal → Option ℚ
  | .jnum q => some q
  | .jbool b => some (if b then 1 else 0)
  | _ => none

/-- Python `x - y` as used for `items_analyzed - items_filtered_out`:
defined on numbers and booleans, raising otherwise. -/
def pySubVal (x y : JVal) : Option ℚ :=
  match pyFloatVal x, pyFloatVal y with
  | some a, some b => some (a - b)
  | _, _ => none

/-- Dictionary lookup on the parsed JSON object (keys of a Python dict are
unique). -/
def jlookup (fields : List (String × JVal)) (k : String) : Option JVal :=
  (fields.find? (fun f => f.1 = k)).map Prod.snd

/-- The `required_keys` list of `_analyze_prices_with_ai`. -/
def required_keys : List String :=
  ["low_price", "average_price", "high_price", "items_analyzed",
   "items_filtered_out", "reasoning", "confidence_rating",
   "confidence_explanation"]

/-- The `valid_confidence_levels` list of `_analyze_prices_with_ai`. -/
def valid_confidence_levels : List String :=
  ["dark_green", "light_green", "yellow", "orange", "red"]

/-- The markdown code-fence stripping applied to `response.text.strip()`
before `json.loads`. -/
def strip_fences (response_text : String) : String :=
  let t := response_text.trim
  if t.startsWith "```json" then
    ((t.replace "```json" "").replace "```" "").trim
  else if t.startsWith "```" then
    (t.replace "```" "").trim
  else t

/-- The outcome of the AI path: either the validated AI dictionary (with
prices coerced by `float()` and the confidence rating normalized) or the
result of falling back to the statistical analyzer. -/
inductive AIOutcome where
  | ai (low average high : ℚ) (items_analyzed items_filtered_out reasoning : JVal)
      (confidence_rating : String) (confidence_explanation : JVal)
      (cleaned_count : ℚ) (items_removed : JVal)
  | fallback (r : PriceResult)

/-- `true` iff the AI path kept the model's answer instead of falling back. -/
def AIOutcome.isAI : AIOutcome → Bool
  | .ai _ _ _ _ _ _ _ _ _ _ => true
  | .fallback _ => false

/-- `_analyze_prices_with_ai` from the parsed response onward: fence-strip,
parse, validate required keys, normalize the confidence rating
(unrecognized string values become "yellow"), coerce the prices, and fall
back to `_analyze_price_distribution` on the same listings whenever any of
these steps raises. -/
def analyze_prices_with_ai (parse : String → Option (List (String × JVal)))
    (response_text : String) (raw_prices : List ℚ) (part_name : String)
    (raw_titles : List String) (minimum_price : ℚ) : AIOutcome :=
  let fb := AIOutcome.fallback
    (analyze_price_distribution raw_prices part_name raw_titles minimum_price)
  match parse (strip_fences response_text) with
  | none => fb
  | some result =>
    if required_keys.all (fun k => (jlookup result k).isSome) then
      match pyLowerVal ((jlookup result "confidence_rating").getD (.jstr "")) with
      | none => fb
      | some cr0 =>
        let confidence_rating :=
          if valid_confidence_levels.contains cr0 then cr0 else "yellow"
        match pyFloatVal ((jlookup result "low_price").getD .jnull),
            pyFloatVal ((jlookup result "average_price").getD .jnull),
            pyFloatVal ((jlookup result "high_price").getD .jnull),
            pySubVal ((jlookup result "items_analyzed").getD .jnull)
              ((jlookup result "items_filtered_out").getD .jnull) with
        | some lo, some av, some hi, some cc =>
          .ai lo av hi ((jlookup result "items_analyzed").getD .jnull)
            ((jlookup result "items_filtered_out").getD .jnull)
            ((jlookup result "reasoning").getD .jnull) confidence_rating
            ((jlookup result "confidence_explanation").getD .jnull) cc
            ((jlookup result "items_filtered_out").getD .jnull)
        | _, _, _, _ => fb
    else fb

/-- C5 (amended): when the fence-stripped response does not parse
(`json.loads` raises) or parses to an object missing any required key, the
AI path returns exactly the statistical analyzer's result on the same
listings, raising nothing; a response with all required keys,
number-valued prices and counts, and a *string* confidence rating outside
the recognized levels is kept with the confidence coerced to "yellow"
(a non-string confidence rating instead raises inside `.lower()` and falls
back). -/
theorem C5_ai_fallback_spec :
    (∀ (parse : String → Option (List (String × JVal))) (resp : String)
      (raws : List ℚ) (part : String) (titles : List String) (minp : ℚ),
      parse (strip_fences resp) = none →
      analyze_prices_with_ai parse resp raws part titles minp =
        .fallback (analyze_price_distribution raws part titles minp)) ∧
    (∀ (parse : String → Option (List (String × JVal))) (resp : String)
      (raws : List ℚ) (part : String) (titles : List String) (minp : ℚ)
      (obj : List (String × JVal)) (k : String),
      parse (strip_fences resp) = some obj →
      k ∈ required_keys → jlookup obj k = none →
      analyze_prices_with_ai parse resp raws part titles minp =
        .fallback (analyze_price_distribution raws part titles minp)) ∧
    (∀ (parse : String → Option (List (String × JVal))) (resp : String)
      (raws : List ℚ) (part : String) (titles : List String) (minp : ℚ)
      (obj : List (String × JVal)) (lo av hi ia ifo : ℚ) (rsn ce : JVal)
      (cr : String),
      parse (strip_fences resp) = some obj →
      jlookup obj "low_price" = some (.jnum lo) →
      jlookup obj "average_price" = some (.jnum av) →
      jlookup obj "high_price" = some (.jnum hi) →
      jlookup obj "items_analyzed" = some (.jnum ia) →
      jlookup obj "items_filtered_out" = some (.jnum ifo) →
      jlookup obj "reasoning" = some rsn →
      jlookup obj "confidence_explanation" = some ce →
      jlookup obj "confidence_rating" = some (.jstr cr) →
      valid_confidence_levels.contains (pylower cr) = false →
      analyze_prices_with_ai parse resp raws part titles minp =
        .ai lo av hi (.jnum ia) (.jnum ifo) rsn "yellow" ce (ia - ifo) (.jnum ifo)) := by
  refine ⟨?_, ?_, ?_⟩
  · intro parse resp raws part titles minp h
    simp only [analyze_prices_with_ai, h]
  · intro parse resp raws part titles minp obj k hparse hk hnone
    have hall : required_keys.all (fun k => (jlookup obj k).isSome) = false := by
      apply List.all_eq_false.mpr
      exact ⟨k, hk, by rw [hnone]; simp⟩
    simp only [analyze_prices_with_ai, hparse, hall]
    rfl
  · intro parse resp raws part titles minp obj lo av hi ia ifo rsn ce cr
      hparse hlo hav hhi hia hifo hrsn hce hcr hlev
    have hall : required_keys.all (fun k => (jlookup obj k).isSome) = true := by
      apply List.all_eq_true.mpr
      intro x hx
      simp only [required_keys, List.mem_cons, List.not_mem_nil, or_false] at hx
      rcases hx with rfl | rfl | rfl | rfl | rfl | rfl | rfl | rfl <;>
        simp [hlo, hav, hhi, hia, hifo, hrsn, hce, hcr]
    simp only [analyze_prices_with_ai, hparse, hall, if_true, hcr, hlo, hav, hhi,
      hia, hifo, hrsn, hce, Option.getD_some, pyLowerVal, pyFloatVal, pySubVal,
      hlev, Bool.false_eq_true, if_false]

def C5_cex_obj : List (String × JVal) :=
  [("low_price", .jnum 100), ("average_price", .jnum 150),
   ("high_price", .jnum 200), ("items_analyzed", .jnum 10),
   ("items_filtered_out", .jnum 2), ("reasoning", .jstr "ok"),
   ("confidence_rating", .jnum 5), ("confidence_explanation", .jstr "low sample")]

/-- C5 counterexample: a response object with all eight required keys whose
`confidence_rating` is the (unrecognized) *number* 5 is not kept with
"yellow": `.lower()` raises `AttributeError`, the exception handler runs,
and the AI path falls back to the statistical analyzer. -/
theorem C5_ai_fallback_cex :
    (analyze_prices_with_ai (fun _ => some C5_cex_obj) "" [10, 20, 30]
      "misc" [] 0).isAI = false ∧
    analyze_prices_with_ai (fun _ => some C5_cex_obj) "" [10, 20, 30]
      "misc" [] 0 =
      .fallback (analyze_price_distribution [10, 20, 30] "misc" [] 0) := by
  constructor
  · rfl
  · rfl

def C5_wit_obj : List (String × JVal) :=
  [("low_price", .jnum 100), ("average_price", .jnum 150),
   ("high_price", .jnum 200), ("items_analyzed", .jnum 10),
   ("items_filtered_out", .jnum 2), ("reasoning", .jstr "ok"),
   ("confidence_rating", .jstr "purple"),
   ("confidence_explanation", .jstr "low sample")]

def C5_wit_obj_missing : List (String × JVal) :=
  [("low_price", .jnum 100), ("average_price", .jnum 150),
   ("high_price", .jnum 200), ("items_analyzed", .jnum 10),
   ("items_filtered_out", .jnum 2), ("reasoning", .jstr "ok"),
   ("confidence_explanation", .jstr "low sample")]

theorem C5_ai_fallback_witness :
    analyze_prices_with_ai (fun _ => none) "this is not JSON" [10, 20, 30]
      "misc" [] 0 =
      .fallback (analyze_price_distribution [10, 20, 30] "misc" [] 0) ∧
    analyze_prices_with_ai (fun _ => some C5_wit_obj_missing) "x" [10, 20, 30]
      "misc" [] 0 =
      .fallback (analyze_price_distribution [10, 20, 30] "misc" [] 0) ∧
    analyze_prices_with_ai (fun _ => some C5_wit_obj) "x" [10, 20, 30]
      "misc" [] 0 =
      .ai 100 150 200 (.jnum 10) (.jnum 2) (.jstr "ok") "yellow"
        (.jstr "low sample") 8 (.jnum 2) := by
  refine ⟨C5_ai_fallback_spec.1 (fun _ => none) "this is not JSON" [10, 20, 30]
      "misc" [] 0 rfl,
    C5_ai_fallback_spec.2.1 (fun _ => some C5_wit_obj_missing) "x" [10, 20, 30]
      "misc" [] 0 C5_wit_obj_missing "confidence_rating" rfl (by decide) rfl, ?_⟩
  have h := C5_ai_fallback_spec.2.2 (fun _ => some C5_wit_obj) "x" [10, 20, 30]
    "misc" [] 0 C5_wit_obj 100 150 200 10 2 (.jstr "ok") (.jstr "low sample")
    "purple" rfl rfl rfl rfl rfl rfl rfl rfl rfl rfl
  have h8 : (10 : ℚ) - 2 = 8 := by norm_num
  rw [h8] at h
  exact h

end PhxPricing
